import Mathlib

/-!
Verification of the cluster-scoped resource matcher of capsule-proxy
(`internal/modules/clusterscoped/utils.go`) and of the request-logging
middleware (`internal/webserver/middleware/logger.go`).

Strings are embedded as lists of characters (`Str`), so that Go's
byte-indexed slicing `value[idx:]` becomes `List.drop idx value`.
-/

namespace CapsuleProxy

abbrev Str := List Char

/-- Embedding of Go `strings.Split(pattern, "*")`: split a string at every
occurrence of the character `*`; the separator is dropped and the (possibly
empty) pieces are returned in order.  `strings.Split` on a one-character
separator always returns `number of separators + 1` pieces. -/
def splitStar : Str → List Str
  | [] => [[]]
  | c :: cs =>
    if c = '*' then [] :: splitStar cs
    else
      match splitStar cs with
      | [] => [[c]]
      | h :: t => (c :: h) :: t

/-- Embedding of Go `strings.Index(v, p)` for a pattern `p`: the index of the
first occurrence of `p` as a contiguous substring of `v`, or `none` when `p`
does not occur (Go returns `-1`). -/
def indexOfSub (p : Str) : Str → Option Nat
  | [] => if p.isPrefixOf [] then some 0 else none
  | c :: vs =>
    if p.isPrefixOf (c :: vs) then some 0
    else (indexOfSub p vs).map (· + 1)

/-- Embedding of the final loop of `matchPattern`: a cursor `idx` into `value`
starts at `0`; each non-empty part must occur in `value[idx:]`
(`indexOfSub p (value.drop idx)`), and on success the cursor advances past the
found occurrence (`idx += i + len(part)`).  Empty parts are skipped.  A part
that is not found makes the whole scan return `false`. -/
def scanIdx (value : Str) : List Str → Nat → Bool
  | [], _ => true
  | p :: ps, idx =>
    if p = [] then scanIdx value ps idx
    else
      match indexOfSub p (value.drop idx) with
      | none => false
      | some i => scanIdx value ps (idx + i + p.length)

/-- Modelled from the spec (§4.1, general multi-wildcard case): the greedy
left-to-right scan described in the spec's words, stated directly on the
remaining suffix of the value instead of a cursor: skip empty parts, locate
each non-empty literal part's first occurrence in the remaining suffix, fail
when absent, and otherwise continue past the occurrence; success once every
non-empty part is located, with no anchoring to the end of the value. -/
def specScan : List Str → Str → Bool
  | [], _ => true
  | p :: ps, v =>
    if p = [] then specScan ps v
    else
      match indexOfSub p v with
      | none => false
      | some i => specScan ps (v.drop (i + p.length))

/-- Embedding of `matchPattern` from
`internal/modules/clusterscoped/utils.go`: `"*"` matches everything; a
pattern without `*` is exact equality; a split into exactly two parts with an
empty leading (resp. trailing) part is a suffix (resp. prefix) test; every
other case runs the greedy cursor scan over all parts. -/
def matchPattern (pattern value : Str) : Bool :=
  if pattern = ['*'] then true
  else if '*' ∉ pattern then pattern == value
  else
    match splitStar pattern with
    | [p0, p1] =>
      if p0 = [] then p1.isSuffixOf value
      else if p1 = [] then p0.isPrefixOf value
      else scanIdx value [p0, p1] 0
    | parts => scanIdx value parts 0

/-- Embedding of `schema.GroupVersionKind` (the fields used by this core). -/
structure GroupVersionKind where
  group : Str
  version : Str
  kind : Str

/-- Embedding of `v1beta1.ClusterResource` (the fields used by this core).
`Op` stands for the opaque `ClusterResourceOperation` values and `Sel` for the
opaque `*metav1.LabelSelector`; neither is inspected here. -/
structure ClusterResource (Op Sel : Type) where
  Resources : List Str
  APIGroups : List Str
  Operations : List Op
  Selector : Sel

/-- Embedding of `tenant.ProxyTenant` (the field used by this core). -/
structure ProxyTenant (Op Sel : Type) where
  ClusterResources : List (ClusterResource Op Sel)

/-- The kind gate of `matchResource`: the loop over `cr.Resources` that sets
`kindMatch` and breaks on the first element equal to `"*"` or to `gvk.Kind`. -/
def kindGate {Op Sel : Type} (gvk : GroupVersionKind) (cr : ClusterResource Op Sel) : Bool :=
  cr.Resources.any fun r => r == ['*'] || r == gvk.kind

/-- The comparison target chosen by `matchResource` for one `apiGroup` entry:
`gvk.Group + "/" + gvk.Version` when the entry contains `/`, else
`gvk.Group`. -/
def groupTarget (gvk : GroupVersionKind) (apiGroup : Str) : Str :=
  if '/' ∈ apiGroup then gvk.group ++ '/' :: gvk.version else gvk.group

/-- Embedding of `matchResource`: the kind gate must pass (early `return
false` otherwise), and then some entry of `cr.APIGroups` must either equal
`"*"` (immediate `return true`) or pattern-match its comparison target; both
loops with early return are rendered as short-circuit `&&` / `List.any`. -/
def matchResource {Op Sel : Type} (gvk : GroupVersionKind) (cr : ClusterResource Op Sel) : Bool :=
  kindGate gvk cr &&
    cr.APIGroups.any fun apiGroup =>
      apiGroup == ['*'] || matchPattern apiGroup (groupTarget gvk apiGroup)

/-- The body of the inner loop of `GetClusterScopeRequirements` for one
`ClusterResource`, acting on the accumulated `(operations, requirements)`
pair.  `conv` embeds the external call chain
`metav1.LabelSelectorAsSelector(cr.Selector)` followed by
`selector.Requirements()`: `none` is a conversion error (`err != nil`, the
rule's requirement contribution is dropped via `continue`), and
`some (reqs, selectable)` the decomposed requirements together with the
selectable flag (`continue` when not selectable). -/
def ruleStep {Op Sel Req : Type} (conv : Sel → Option (List Req × Bool))
    (gvk : GroupVersionKind) (acc : List Op × List Req)
    (cr : ClusterResource Op Sel) : List Op × List Req :=
  if matchResource gvk cr then
    let ops := acc.1 ++ cr.Operations
    match conv cr.Selector with
    | none => (ops, acc.2)
    | some (reqs, selectable) =>
      if selectable then (ops, acc.2 ++ reqs) else (ops, acc.2)
  else acc

/-- The body of the outer loop of `GetClusterScopeRequirements` for one
`ProxyTenant`: fold the inner loop over its `ClusterResources`. -/
def tenantStep {Op Sel Req : Type} (conv : Sel → Option (List Req × Bool))
    (gvk : GroupVersionKind) (acc : List Op × List Req)
    (pt : ProxyTenant Op Sel) : List Op × List Req :=
  pt.ClusterResources.foldl (ruleStep conv gvk) acc

/-- Embedding of `GetClusterScopeRequirements`: starting from the empty
`operations` and `requirements` slices, traverse the tenants in order and,
inside each, the cluster resources in order, appending each matched rule's
operations and (when its selector converts and is selectable) its
requirements. -/
def GetClusterScopeRequirements {Op Sel Req : Type}
    (conv : Sel → Option (List Req × Bool)) (gvk : GroupVersionKind)
    (proxyTenants : List (ProxyTenant Op Sel)) : List Op × List Req :=
  proxyTenants.foldl (tenantStep conv gvk) ([], [])

/-- The inner fold of `GetClusterScopeRequirements` run on one rule list from
empty accumulators: the contribution of a single tenant. -/
def aggRules {Op Sel Req : Type} (conv : Sel → Option (List Req × Bool))
    (gvk : GroupVersionKind) (crs : List (ClusterResource Op Sel)) :
    List Op × List Req :=
  crs.foldl (ruleStep conv gvk) ([], [])

/-- Embedding of `http.Request` (the fields/accessors the logging middleware
reads: `Method`, `URL.String()`, `Host`, `Header`, `RemoteAddr`,
`RequestURI`, `Proto`, `ContentLength`, `TransferEncoding`, `Cookies()`,
`URL.Query()`). -/
structure Request where
  method : Str
  urlString : Str
  host : Str
  headers : List (Str × List Str)
  remoteAddr : Str
  requestURI : Str
  proto : Str
  contentLength : Int
  transferEncoding : List Str
  cookies : List Str
  query : List (Str × List Str)

/-- Observable effects of one invocation of the handler returned by
`LoggerMiddleware`, as a trace: a log record at some verbosity carrying the
request whose metadata is logged, or a delegation `next.ServeHTTP(w, r)`
carrying exactly the response writer and request passed on.  `W` is the
opaque `http.ResponseWriter`. -/
inductive HandlerEvent (W : Type) where
  | logRecord (verbosity : Nat) (msg : Str) (req : Request)
  | serveNext (w : W) (r : Request)

/-- Embedding of the handler built by `LoggerMiddleware`
(`internal/webserver/middleware/logger.go`) as its effect trace: it emits one
`log.V(10).Info("HTTP details", ...)` record of the incoming request's
metadata and then calls `next.ServeHTTP(w, r)` on the unmodified arguments. -/
def LoggerMiddleware {W : Type} (w : W) (r : Request) : List (HandlerEvent W) :=
  [HandlerEvent.logRecord 10 "HTTP details".data r, HandlerEvent.serveNext w r]

/-- Recognizer for delegation events in a handler trace. -/
def isServeEvent {W : Type} : HandlerEvent W → Bool
  | HandlerEvent.serveNext _ _ => true
  | _ => false

/-- Recognizer for log events in a handler trace. -/
def isLogEvent {W : Type} : HandlerEvent W → Bool
  | HandlerEvent.logRecord _ _ _ => true
  | _ => false

/-! ### Helper lemmas about the pattern matcher -/

lemma isPrefixOf_length {α : Type} [BEq α] :
    ∀ p v : List α, p.isPrefixOf v = true → p.length ≤ v.length
  | [], _, _ => Nat.zero_le _
  | _ :: _, [], h => by simp [List.isPrefixOf] at h
  | a :: p, b :: v, h => by
    simp only [List.isPrefixOf, Bool.and_eq_true] at h
    have := isPrefixOf_length p v h.2
    simpa [Nat.succ_le_succ_iff] using this

lemma indexOfSub_le_length (p : Str) :
    ∀ (v : Str) (i : Nat), indexOfSub p v = some i → i ≤ v.length := by
  intro v
  induction v with
  | nil =>
    intro i h
    simp only [indexOfSub] at h
    split at h
    · cases h; exact Nat.le_refl _
    · cases h
  | cons c vs ih =>
    intro i h
    simp only [indexOfSub] at h
    split at h
    · cases h; exact Nat.zero_le _
    · rw [Option.map_eq_some'] at h
      obtain ⟨j, hj, hji⟩ := h
      have := ih j hj
      simp only [List.length_cons]
      omega

lemma indexOfSub_found (p : Str) :
    ∀ (v : Str) (i : Nat), indexOfSub p v = some i →
      p.isPrefixOf (v.drop i) = true := by
  intro v
  induction v with
  | nil =>
    intro i h
    simp only [indexOfSub] at h
    split at h
    next hpp => cases h; simpa using hpp
    next => cases h
  | cons c vs ih =>
    intro i h
    simp only [indexOfSub] at h
    split at h
    next hpp => cases h; simpa using hpp
    next =>
      rw [Option.map_eq_some'] at h
      obtain ⟨j, hj, hji⟩ := h
      subst hji
      simpa using ih j hj

lemma indexOfSub_complete (p : Str) :
    ∀ (v : Str) (i : Nat), p.isPrefixOf (v.drop i) = true →
      ∃ j, indexOfSub p v = some j ∧ j ≤ i := by
  intro v
  induction v with
  | nil =>
    intro i h
    refine ⟨0, ?_, Nat.zero_le _⟩
    simp only [List.drop_nil] at h
    simp [indexOfSub, h]
  | cons c vs ih =>
    intro i h
    by_cases hpc : p.isPrefixOf (c :: vs) = true
    · exact ⟨0, by simp [indexOfSub, hpc], Nat.zero_le _⟩
    · cases i with
      | zero =>
        simp only [List.drop_zero] at h
        exact absurd h hpc
      | succ n =>
        simp only [List.drop_succ_cons] at h
        obtain ⟨j, hj, hle⟩ := ih n h
        refine ⟨j + 1, ?_, by omega⟩
        simp [indexOfSub, hpc, hj]

lemma indexOfSub_bound (p v : Str) (i : Nat) (h : indexOfSub p v = some i) :
    i + p.length ≤ v.length := by
  have h1 := indexOfSub_le_length p v i h
  have h2 := indexOfSub_found p v i h
  have h3 := isPrefixOf_length p (v.drop i) h2
  rw [List.length_drop] at h3
  omega

lemma scanIdx_eq_specScan (value : Str) :
    ∀ (ps : List Str) (idx : Nat),
      scanIdx value ps idx = specScan ps (value.drop idx) := by
  intro ps
  induction ps with
  | nil => intro idx; rfl
  | cons p ps ih =>
    intro idx
    by_cases hp : p = []
    · simp only [scanIdx, specScan, if_pos hp]
      exact ih idx
    · simp only [scanIdx, specScan, if_neg hp]
      cases h : indexOfSub p (value.drop idx) with
      | none => rfl
      | some i =>
        show scanIdx value ps (idx + i + p.length) =
          specScan ps ((value.drop idx).drop (i + p.length))
        rw [ih (idx + i + p.length), List.drop_drop, Nat.add_assoc]

lemma splitStar_no_star : ∀ l : Str, '*' ∉ l → splitStar l = [l] := by
  intro l
  induction l with
  | nil => intro _; rfl
  | cons c cs ih =>
    intro h
    have hc : ¬c = '*' := by
      intro e
      exact h (by simp [e])
    have hcs : '*' ∉ cs := fun hm => h (List.mem_cons_of_mem _ hm)
    simp only [splitStar, if_neg hc, ih hcs]

lemma splitStar_append_star (lit : Str) (h : '*' ∉ lit) :
    splitStar (lit ++ ['*']) = [lit, []] := by
  induction lit with
  | nil => rfl
  | cons c cs ih =>
    have hc : ¬c = '*' := by
      intro e
      exact h (by simp [e])
    have hcs : '*' ∉ cs := fun hm => h (List.mem_cons_of_mem _ hm)
    simp only [List.cons_append, splitStar, List.append_eq, if_neg hc, ih hcs]

lemma splitStar_two_mem_star (l p0 p1 : Str) (h : splitStar l = [p0, p1]) :
    '*' ∈ l := by
  by_contra hn
  rw [splitStar_no_star l hn] at h
  injection h with _ htl
  cases htl

lemma scanIdx_found (value p : Str) (ps : List Str) (idx i : Nat)
    (hp : p ≠ []) (hfind : indexOfSub p (value.drop idx) = some i) :
    scanIdx value (p :: ps) idx = scanIdx value ps (idx + i + p.length) := by
  simp only [scanIdx, if_neg hp, hfind]

/-! ### Claims about the pattern matcher -/

/-- C1: for every pattern containing at least one `*`, different from `"*"`,
and not splitting into two parts with an empty leading or trailing part,
`matchPattern pattern value` agrees with the spec's greedy left-to-right scan
over the parts of the pattern: skip empty parts, find each non-empty literal
part at or after the cursor, fail if absent, advance the cursor past each
occurrence, and require no anchoring of the final part to the end of the
value. -/
theorem C1_matchPattern_general_greedy_scan (pattern value : Str)
    (h1 : '*' ∈ pattern) (h2 : pattern ≠ ['*'])
    (h3 : ∀ p0 p1, splitStar pattern = [p0, p1] → p0 ≠ [] ∧ p1 ≠ []) :
    matchPattern pattern value = specScan (splitStar pattern) value := by
  have key : ∀ ps : List Str, scanIdx value ps 0 = specScan ps value := by
    intro ps
    have h := scanIdx_eq_specScan value ps 0
    rwa [List.drop_zero] at h
  unfold matchPattern
  rw [if_neg h2, if_neg (not_not_intro h1)]
  generalize hsp : splitStar pattern = parts
  rw [hsp] at h3
  rcases parts with _ | ⟨p0, _ | ⟨p1, _ | ⟨p2, rest⟩⟩⟩
  · exact key []
  · exact key [p0]
  · obtain ⟨hne0, hne1⟩ := h3 p0 p1 rfl
    show (if p0 = [] then p1.isSuffixOf value
      else if p1 = [] then p0.isPrefixOf value
      else scanIdx value [p0, p1] 0) = specScan [p0, p1] value
    rw [if_neg hne0, if_neg hne1]
    exact key [p0, p1]
  · exact key (p0 :: p1 :: p2 :: rest)

/-- C1 witness: the pattern `"a*b"` on the value `"xaybz"` satisfies the
hypotheses and the conclusion of the general-scan claim. -/
theorem C1_witness :
    '*' ∈ (['a', '*', 'b'] : Str) ∧ (['a', '*', 'b'] : Str) ≠ ['*'] ∧
      matchPattern ['a', '*', 'b'] ['x', 'a', 'y', 'b', 'z'] =
        specScan (splitStar ['a', '*', 'b']) ['x', 'a', 'y', 'b', 'z'] :=
  ⟨by decide, by decide,
    C1_matchPattern_general_greedy_scan ['a', '*', 'b'] ['x', 'a', 'y', 'b', 'z']
      (by decide) (by decide)
      (by
        intro p0 p1 hsp
        rw [show splitStar ['a', '*', 'b'] = [['a'], ['b']] from by decide] at hsp
        injection hsp with ha htl
        injection htl with hb _
        subst ha
        subst hb
        exact ⟨by decide, by decide⟩)⟩

/-- C7: the greedy scan's cursor stays within the value: whenever the cursor
`idx` is in bounds and a part is found at offset `i` of `value[idx:]`, the
advanced cursor `idx + i + len(part)` still does not exceed `len(value)`, so
the slicing `value[idx:]` performed by the scan is always in bounds (the
cursor starts at `0`); all the embedded operations are total Lean functions,
returning a value on every input, including empty patterns and values. -/
theorem C7_scan_cursor_in_bounds (p value : Str) (idx i : Nat)
    (hidx : idx ≤ value.length)
    (hfound : indexOfSub p (value.drop idx) = some i) :
    idx + i + p.length ≤ value.length := by
  have hb := indexOfSub_bound p (value.drop idx) i hfound
  rw [List.length_drop] at hb
  omega

/-- C7 witness: scanning for `"c"` in `"abc"` from cursor `1` finds it at
offset `1` and the advanced cursor `3` is still in bounds. -/
theorem C7_witness :
    1 ≤ (['a', 'b', 'c'] : Str).length ∧
      indexOfSub ['c'] ((['a', 'b', 'c'] : Str).drop 1) = some 1 ∧
      1 + 1 + (['c'] : Str).length ≤ (['a', 'b', 'c'] : Str).length :=
  ⟨by decide, by decide,
    C7_scan_cursor_in_bounds ['c'] ['a', 'b', 'c'] 1 1 (by decide) (by decide)⟩

/-- C8: a pattern `lit ++ "*"` (single trailing `*`) is exactly a prefix
test, and `"*" ++ lit` (single leading `*`) exactly a suffix test. -/
theorem C8_single_star_prefix_suffix (lit v : Str) (h : '*' ∉ lit) :
    matchPattern (lit ++ ['*']) v = lit.isPrefixOf v ∧
      matchPattern ('*' :: lit) v = lit.isSuffixOf v := by
  constructor
  · cases lit with
    | nil =>
      show matchPattern ['*'] v = List.isPrefixOf [] v
      unfold matchPattern
      rw [if_pos rfl]
      simp [List.isPrefixOf]
    | cons c cs =>
      have hne : (c :: cs) ++ ['*'] ≠ ['*'] := by
        intro he
        have hlen := congrArg List.length he
        simp at hlen
      have hmem : '*' ∈ (c :: cs) ++ ['*'] := by simp
      unfold matchPattern
      rw [if_neg hne, if_neg (not_not_intro hmem), splitStar_append_star (c :: cs) h]
      show (if c :: cs = ([] : Str) then List.isSuffixOf ([] : Str) v
        else if ([] : Str) = ([] : Str) then (c :: cs).isPrefixOf v
        else scanIdx v [c :: cs, []] 0) = (c :: cs).isPrefixOf v
      rw [if_neg (List.cons_ne_nil c cs), if_pos rfl]
  · cases lit with
    | nil =>
      unfold matchPattern
      rw [if_pos rfl]
      simp [List.isSuffixOf, List.isPrefixOf]
    | cons c cs =>
      have hne : ('*' :: c :: cs : Str) ≠ ['*'] := by simp
      have hmem : '*' ∈ ('*' :: c :: cs : Str) := List.mem_cons_self _ _
      unfold matchPattern
      rw [if_neg hne, if_neg (not_not_intro hmem)]
      have hsp : splitStar ('*' :: c :: cs) = [[], c :: cs] := by
        show (if ('*' : Char) = '*' then [] :: splitStar (c :: cs) else _) = _
        rw [if_pos rfl, splitStar_no_star (c :: cs) h]
      rw [hsp]
      show (if ([] : Str) = [] then (c :: cs).isSuffixOf v
        else if c :: cs = ([] : Str) then List.isPrefixOf ([] : Str) v
        else scanIdx v [[], c :: cs] 0) = (c :: cs).isSuffixOf v
      rw [if_pos rfl]

/-- C8 witness: `"ab*"` against `"zab"` is the prefix test (false here would
be wrong only if `"zab"` started with `"ab"`; it does not) and `"*ab"`
against `"zab"` the suffix test. -/
theorem C8_witness :
    '*' ∉ (['a', 'b'] : Str) ∧
      (matchPattern (['a', 'b'] ++ ['*']) ['z', 'a', 'b'] =
          (['a', 'b'] : Str).isPrefixOf ['z', 'a', 'b'] ∧
        matchPattern ('*' :: ['a', 'b']) ['z', 'a', 'b'] =
          (['a', 'b'] : Str).isSuffixOf ['z', 'a', 'b']) :=
  ⟨by decide, C8_single_star_prefix_suffix ['a', 'b'] ['z', 'a', 'b'] (by decide)⟩

/-- C9: a pattern with a single interior `*` (two non-empty parts) anchors
neither part: the match succeeds whenever the leading literal occurs anywhere
in the value and the trailing literal occurs somewhere after it. -/
theorem C9_interior_star_unanchored (pattern p0 p1 value : Str)
    (hsp : splitStar pattern = [p0, p1]) (h0 : p0 ≠ []) (h1 : p1 ≠ [])
    (i j : Nat) (hij : i + p0.length ≤ j)
    (hocc0 : p0.isPrefixOf (value.drop i) = true)
    (hocc1 : p1.isPrefixOf (value.drop j) = true) :
    matchPattern pattern value = true := by
  have hmem : '*' ∈ pattern := splitStar_two_mem_star pattern p0 p1 hsp
  have hne : pattern ≠ ['*'] := by
    intro he
    subst he
    rw [show splitStar ['*'] = [[], []] from rfl] at hsp
    injection hsp with ha _
    exact h0 ha.symm
  unfold matchPattern
  rw [if_neg hne, if_neg (not_not_intro hmem), hsp]
  show (if p0 = [] then p1.isSuffixOf value
    else if p1 = [] then p0.isPrefixOf value
    else scanIdx value [p0, p1] 0) = true
  rw [if_neg h0, if_neg h1]
  obtain ⟨k, hk, hki⟩ := indexOfSub_complete p0 value i hocc0
  rw [scanIdx_found value p0 [p1] 0 k h0 hk]
  have harith : (0 + k + p0.length) + (j - (0 + k + p0.length)) = j := by omega
  have hocc1' : p1.isPrefixOf
      ((value.drop (0 + k + p0.length)).drop (j - (0 + k + p0.length))) = true := by
    rw [List.drop_drop, harith]
    exact hocc1
  obtain ⟨m, hm, _⟩ := indexOfSub_complete p1 (value.drop (0 + k + p0.length))
    (j - (0 + k + p0.length)) hocc1'
  rw [scanIdx_found value p1 [] (0 + k + p0.length) m h1 hm]
  rfl

/-- C9 witness: `"a*b"` matches `"xaybz"` although `"xaybz"` neither starts
with `"a"` nor ends with `"b"` (occurrences at positions 1 and 3). -/
theorem C9_witness :
    splitStar ['a', '*', 'b'] = [['a'], ['b']] ∧
      matchPattern ['a', '*', 'b'] ['x', 'a', 'y', 'b', 'z'] = true :=
  ⟨by decide,
    C9_interior_star_unanchored ['a', '*', 'b'] ['a'] ['b'] ['x', 'a', 'y', 'b', 'z']
      (by decide) (by decide) (by decide) 1 3 (by decide) (by decide) (by decide)⟩

/-! ### Claims about the resource rule matcher -/

/-- C2: `matchResource` holds exactly when (a) `cr.Resources` contains the
literal `"*"` or an element equal to the coordinate's kind (exact string
membership), and (b) some entry of `cr.APIGroups` equals `"*"` or
pattern-matches its comparison target, the target being
`group ++ "/" ++ version` when the entry contains `/` and `group` alone
otherwise. -/
theorem C2_matchResource_characterization {Op Sel : Type}
    (gvk : GroupVersionKind) (cr : ClusterResource Op Sel) :
    matchResource gvk cr = true ↔
      ((['*'] ∈ cr.Resources ∨ gvk.kind ∈ cr.Resources) ∧
        ∃ g ∈ cr.APIGroups, g = ['*'] ∨
          matchPattern g
            (if '/' ∈ g then gvk.group ++ '/' :: gvk.version else gvk.group) = true) := by
  simp only [matchResource, kindGate, groupTarget, Bool.and_eq_true, List.any_eq_true,
    Bool.or_eq_true, beq_iff_eq]
  constructor
  · rintro ⟨⟨r, hr, hb | hb⟩, hg⟩
    · exact ⟨Or.inl (hb ▸ hr), hg⟩
    · exact ⟨Or.inr (hb ▸ hr), hg⟩
  · rintro ⟨hk | hk, hg⟩
    · exact ⟨⟨['*'], hk, Or.inl rfl⟩, hg⟩
    · exact ⟨⟨gvk.kind, hk, Or.inr rfl⟩, hg⟩

/-- C5: a rule with an empty `Resources` list or an empty `APIGroups` list
never matches any coordinate; an absent group-pattern list is not a
wildcard. -/
theorem C5_empty_lists_never_match {Op Sel : Type} (gvk : GroupVersionKind)
    (cr : ClusterResource Op Sel)
    (h : cr.Resources = [] ∨ cr.APIGroups = []) :
    matchResource gvk cr = false := by
  rcases h with h | h <;> simp [matchResource, kindGate, h]

/-- C5 witness: a rule with empty `Resources` (and, for the second
disjunct's shape, a rule with empty `APIGroups`) does not match a sample
coordinate. -/
theorem C5_witness :
    ((⟨[], [['*']], [0], 0⟩ : ClusterResource Nat Nat).Resources = [] ∨
        (⟨[], [['*']], [0], 0⟩ : ClusterResource Nat Nat).APIGroups = []) ∧
      matchResource ⟨['g'], ['v'], ['K']⟩
        (⟨[], [['*']], [0], 0⟩ : ClusterResource Nat Nat) = false :=
  ⟨Or.inl rfl, C5_empty_lists_never_match ⟨['g'], ['v'], ['K']⟩ _ (Or.inl rfl)⟩

/-! ### Helper lemmas about the aggregator -/

lemma ruleStep_shift {Op Sel Req : Type} (conv : Sel → Option (List Req × Bool))
    (gvk : GroupVersionKind) :
    ∀ (x a : List Op) (y b : List Req) (cr : ClusterResource Op Sel),
      ruleStep conv gvk (x ++ a, y ++ b) cr =
        (x ++ (ruleStep conv gvk (a, b) cr).1, y ++ (ruleStep conv gvk (a, b) cr).2) := by
  intro x a y b cr
  unfold ruleStep
  by_cases hm : matchResource gvk cr = true
  · rw [if_pos hm, if_pos hm]
    cases hc : conv cr.Selector with
    | none => simp
    | some pr =>
      obtain ⟨reqs, sel⟩ := pr
      cases sel <;> simp
  · rw [if_neg hm, if_neg hm]

lemma foldl_pair_shift {α Op Req : Type}
    (f : (List Op × List Req) → α → (List Op × List Req))
    (hf : ∀ (x a : List Op) (y b : List Req) (c : α),
      f (x ++ a, y ++ b) c = (x ++ (f (a, b) c).1, y ++ (f (a, b) c).2)) :
    ∀ (l : List α) (x a : List Op) (y b : List Req),
      l.foldl f (x ++ a, y ++ b) =
        (x ++ (l.foldl f (a, b)).1, y ++ (l.foldl f (a, b)).2) := by
  intro l
  induction l with
  | nil => intro x a y b; rfl
  | cons c l ih =>
    intro x a y b
    rw [List.foldl_cons, List.foldl_cons, hf]
    exact ih x (f (a, b) c).1 y (f (a, b) c).2

lemma rules_foldl_acc {Op Sel Req : Type} (conv : Sel → Option (List Req × Bool))
    (gvk : GroupVersionKind) (crs : List (ClusterResource Op Sel))
    (acc : List Op × List Req) :
    crs.foldl (ruleStep conv gvk) acc =
      (acc.1 ++ (aggRules conv gvk crs).1, acc.2 ++ (aggRules conv gvk crs).2) := by
  have h := foldl_pair_shift (ruleStep conv gvk) (ruleStep_shift conv gvk) crs acc.1 [] acc.2 []
  simpa [aggRules] using h

lemma tenantStep_shift {Op Sel Req : Type} (conv : Sel → Option (List Req × Bool))
    (gvk : GroupVersionKind) :
    ∀ (x a : List Op) (y b : List Req) (pt : ProxyTenant Op Sel),
      tenantStep conv gvk (x ++ a, y ++ b) pt =
        (x ++ (tenantStep conv gvk (a, b) pt).1, y ++ (tenantStep conv gvk (a, b) pt).2) := by
  intro x a y b pt
  unfold tenantStep
  exact foldl_pair_shift (ruleStep conv gvk) (ruleStep_shift conv gvk)
    pt.ClusterResources x a y b

lemma tenants_foldl_acc {Op Sel Req : Type} (conv : Sel → Option (List Req × Bool))
    (gvk : GroupVersionKind) (ts : List (ProxyTenant Op Sel))
    (acc : List Op × List Req) :
    ts.foldl (tenantStep conv gvk) acc =
      (acc.1 ++ (GetClusterScopeRequirements conv gvk ts).1,
        acc.2 ++ (GetClusterScopeRequirements conv gvk ts).2) := by
  have h := foldl_pair_shift (tenantStep conv gvk) (tenantStep_shift conv gvk) ts acc.1 [] acc.2 []
  simpa [GetClusterScopeRequirements] using h

lemma G_append {Op Sel Req : Type} (conv : Sel → Option (List Req × Bool))
    (gvk : GroupVersionKind) (A B : List (ProxyTenant Op Sel)) :
    GetClusterScopeRequirements conv gvk (A ++ B) =
      ((GetClusterScopeRequirements conv gvk A).1 ++
          (GetClusterScopeRequirements conv gvk B).1,
        (GetClusterScopeRequirements conv gvk A).2 ++
          (GetClusterScopeRequirements conv gvk B).2) := by
  show (A ++ B).foldl (tenantStep conv gvk) ([], []) = _
  rw [List.foldl_append,
    tenants_foldl_acc conv gvk B (A.foldl (tenantStep conv gvk) ([], []))]
  rfl

lemma G_cons {Op Sel Req : Type} (conv : Sel → Option (List Req × Bool))
    (gvk : GroupVersionKind) (pt : ProxyTenant Op Sel)
    (ts : List (ProxyTenant Op Sel)) :
    GetClusterScopeRequirements conv gvk (pt :: ts) =
      ((aggRules conv gvk pt.ClusterResources).1 ++
          (GetClusterScopeRequirements conv gvk ts).1,
        (aggRules conv gvk pt.ClusterResources).2 ++
          (GetClusterScopeRequirements conv gvk ts).2) := by
  show (pt :: ts).foldl (tenantStep conv gvk) ([], []) = _
  rw [List.foldl_cons,
    tenants_foldl_acc conv gvk ts (tenantStep conv gvk ([], []) pt)]
  rfl

lemma ruleStep_no_reqs {Op Sel Req : Type} (conv : Sel → Option (List Req × Bool))
    (gvk : GroupVersionKind) (acc : List Op × List Req)
    (cr : ClusterResource Op Sel)
    (hm : matchResource gvk cr = true)
    (hs : conv cr.Selector = none ∨ ∃ reqs, conv cr.Selector = some (reqs, false)) :
    ruleStep conv gvk acc cr = (acc.1 ++ cr.Operations, acc.2) := by
  unfold ruleStep
  rw [if_pos hm]
  rcases hs with hs | ⟨reqs, hs⟩ <;> rw [hs]
  rfl

lemma aggRules_mid {Op Sel Req : Type} (conv : Sel → Option (List Req × Bool))
    (gvk : GroupVersionKind) (rs1 rs2 : List (ClusterResource Op Sel))
    (cr : ClusterResource Op Sel)
    (hm : matchResource gvk cr = true)
    (hs : conv cr.Selector = none ∨ ∃ reqs, conv cr.Selector = some (reqs, false)) :
    aggRules conv gvk (rs1 ++ cr :: rs2) =
      ((aggRules conv gvk rs1).1 ++ cr.Operations ++ (aggRules conv gvk rs2).1,
        (aggRules conv gvk rs1).2 ++ (aggRules conv gvk rs2).2) := by
  unfold aggRules
  rw [List.foldl_append, List.foldl_cons,
    ruleStep_no_reqs conv gvk _ cr hm hs,
    rules_foldl_acc conv gvk rs2]
  simp [aggRules, List.append_assoc]

lemma rules_no_match {Op Sel Req : Type} (conv : Sel → Option (List Req × Bool))
    (gvk : GroupVersionKind) :
    ∀ (crs : List (ClusterResource Op Sel)) (acc : List Op × List Req),
      (∀ cr ∈ crs, matchResource gvk cr = false) →
      crs.foldl (ruleStep conv gvk) acc = acc := by
  intro crs
  induction crs with
  | nil => intro acc _; rfl
  | cons cr crs ih =>
    intro acc h
    rw [List.foldl_cons,
      show ruleStep conv gvk acc cr = acc from by
        unfold ruleStep
        rw [if_neg (by simp [h cr (List.mem_cons_self _ _)])]]
    exact ih acc fun c hc => h c (List.mem_cons_of_mem _ hc)

/-! ### Claims about the aggregator -/

/-- C3: a matched rule whose selector fails conversion (`conv` yields `none`)
or whose converted selector is not selectable still contributes its
operations, contributes no requirements, raises nothing (the aggregator is a
total function), and the remaining rules of its tenant and the remaining
tenants are still processed in order. -/
theorem C3_rule_selector_failure_keeps_operations {Op Sel Req : Type}
    (conv : Sel → Option (List Req × Bool)) (gvk : GroupVersionKind)
    (ts1 ts2 : List (ProxyTenant Op Sel))
    (rs1 rs2 : List (ClusterResource Op Sel)) (cr : ClusterResource Op Sel)
    (hm : matchResource gvk cr = true)
    (hs : conv cr.Selector = none ∨ ∃ reqs, conv cr.Selector = some (reqs, false)) :
    GetClusterScopeRequirements conv gvk
        (ts1 ++ (⟨rs1 ++ cr :: rs2⟩ : ProxyTenant Op Sel) :: ts2) =
      ((GetClusterScopeRequirements conv gvk ts1).1 ++ (aggRules conv gvk rs1).1 ++
          cr.Operations ++ (aggRules conv gvk rs2).1 ++
          (GetClusterScopeRequirements conv gvk ts2).1,
        (GetClusterScopeRequirements conv gvk ts1).2 ++ (aggRules conv gvk rs1).2 ++
          (aggRules conv gvk rs2).2 ++
          (GetClusterScopeRequirements conv gvk ts2).2) := by
  rw [G_append conv gvk ts1 ((⟨rs1 ++ cr :: rs2⟩ : ProxyTenant Op Sel) :: ts2),
    G_cons conv gvk (⟨rs1 ++ cr :: rs2⟩ : ProxyTenant Op Sel) ts2,
    show (⟨rs1 ++ cr :: rs2⟩ : ProxyTenant Op Sel).ClusterResources =
      rs1 ++ cr :: rs2 from rfl,
    aggRules_mid conv gvk rs1 rs2 cr hm hs]
  simp [List.append_assoc]

/-- C3 witness: one tenant holding a matching rule whose selector conversion
fails (`conv` constantly `none`), followed by another matching rule and a
second tenant: the failing rule's operations `[7]` survive, its requirements
are dropped, and the later rule and tenant still contribute `[8]` and `[9]`. -/
theorem C3_witness :
    matchResource (⟨['g'], ['v'], ['K']⟩ : GroupVersionKind)
        (⟨[['*']], [['*']], [7], 0⟩ : ClusterResource Nat Nat) = true ∧
      GetClusterScopeRequirements (fun _ => (none : Option (List Nat × Bool)))
          (⟨['g'], ['v'], ['K']⟩ : GroupVersionKind)
          (([] : List (ProxyTenant Nat Nat)) ++
            (⟨([] : List (ClusterResource Nat Nat)) ++
                (⟨[['*']], [['*']], [7], 0⟩ : ClusterResource Nat Nat) ::
                  [⟨[['*']], [['*']], [8], 0⟩]⟩ : ProxyTenant Nat Nat) ::
              [⟨[⟨[['*']], [['*']], [9], 0⟩]⟩]) =
        ((GetClusterScopeRequirements (fun _ => (none : Option (List Nat × Bool)))
              (⟨['g'], ['v'], ['K']⟩ : GroupVersionKind)
              ([] : List (ProxyTenant Nat Nat))).1 ++
            (aggRules (fun _ => (none : Option (List Nat × Bool)))
              (⟨['g'], ['v'], ['K']⟩ : GroupVersionKind)
              ([] : List (ClusterResource Nat Nat))).1 ++
            [7] ++
            (aggRules (fun _ => (none : Option (List Nat × Bool)))
              (⟨['g'], ['v'], ['K']⟩ : GroupVersionKind)
              [(⟨[['*']], [['*']], [8], 0⟩ : ClusterResource Nat Nat)]).1 ++
            (GetClusterScopeRequirements (fun _ => (none : Option (List Nat × Bool)))
              (⟨['g'], ['v'], ['K']⟩ : GroupVersionKind)
              [(⟨[⟨[['*']], [['*']], [9], 0⟩]⟩ : ProxyTenant Nat Nat)]).1,
          (GetClusterScopeRequirements (fun _ => (none : Option (List Nat × Bool)))
              (⟨['g'], ['v'], ['K']⟩ : GroupVersionKind)
              ([] : List (ProxyTenant Nat Nat))).2 ++
            (aggRules (fun _ => (none : Option (List Nat × Bool)))
              (⟨['g'], ['v'], ['K']⟩ : GroupVersionKind)
              ([] : List (ClusterResource Nat Nat))).2 ++
            (aggRules (fun _ => (none : Option (List Nat × Bool)))
              (⟨['g'], ['v'], ['K']⟩ : GroupVersionKind)
              [(⟨[['*']], [['*']], [8], 0⟩ : ClusterResource Nat Nat)]).2 ++
            (GetClusterScopeRequirements (fun _ => (none : Option (List Nat × Bool)))
              (⟨['g'], ['v'], ['K']⟩ : GroupVersionKind)
              [(⟨[⟨[['*']], [['*']], [9], 0⟩]⟩ : ProxyTenant Nat Nat)]).2) :=
  ⟨by decide,
    C3_rule_selector_failure_keeps_operations
      (fun _ => (none : Option (List Nat × Bool)))
      (⟨['g'], ['v'], ['K']⟩ : GroupVersionKind)
      [] [⟨[⟨[['*']], [['*']], [9], 0⟩]⟩]
      [] [⟨[['*']], [['*']], [8], 0⟩]
      (⟨[['*']], [['*']], [7], 0⟩ : ClusterResource Nat Nat)
      (by decide) (Or.inl rfl)⟩

/-- C4: the aggregator is a homomorphism for tenant-list concatenation: the
result on `A ++ B` is the component-wise ordered concatenation of the results
on `A` and on `B`, with no de-duplication, sorting, or interaction across
tenants. -/
theorem C4_aggregate_append {Op Sel Req : Type}
    (conv : Sel → Option (List Req × Bool)) (gvk : GroupVersionKind)
    (A B : List (ProxyTenant Op Sel)) :
    GetClusterScopeRequirements conv gvk (A ++ B) =
      ((GetClusterScopeRequirements conv gvk A).1 ++
          (GetClusterScopeRequirements conv gvk B).1,
        (GetClusterScopeRequirements conv gvk A).2 ++
          (GetClusterScopeRequirements conv gvk B).2) :=
  G_append conv gvk A B

/-- C6: the aggregator on an empty tenant list, and more generally whenever
no rule matches the coordinate, returns the pair of empty sequences — a
present `([], [])` value, never an absent result (the embedding is a total
function into pairs of lists). -/
theorem C6_no_match_yields_empty {Op Sel Req : Type}
    (conv : Sel → Option (List Req × Bool)) (gvk : GroupVersionKind)
    (ts : List (ProxyTenant Op Sel))
    (h : ∀ pt ∈ ts, ∀ cr ∈ pt.ClusterResources, matchResource gvk cr = false) :
    GetClusterScopeRequirements conv gvk ts = ([], []) := by
  show ts.foldl (tenantStep conv gvk) ([], []) = ([], [])
  induction ts with
  | nil => rfl
  | cons pt ts ih =>
    rw [List.foldl_cons,
      show tenantStep conv gvk ([], []) pt = ([], []) from
        rules_no_match conv gvk pt.ClusterResources ([], [])
          (h pt (List.mem_cons_self _ _))]
    exact ih fun p hp cr hc => h p (List.mem_cons_of_mem _ hp) cr hc

/-- C6 witness: a tenant whose single rule has an empty `APIGroups` list
never matches, and the aggregation over it (and over the empty tenant list,
which the theorem also covers vacuously) is `([], [])`. -/
theorem C6_witness :
    (∀ pt ∈ [(⟨[⟨[['K']], [], [1], 0⟩]⟩ : ProxyTenant Nat Nat)],
        ∀ cr ∈ pt.ClusterResources,
          matchResource (⟨['g'], ['v'], ['K']⟩ : GroupVersionKind) cr = false) ∧
      GetClusterScopeRequirements (fun _ => (none : Option (List Nat × Bool)))
          (⟨['g'], ['v'], ['K']⟩ : GroupVersionKind)
          [(⟨[⟨[['K']], [], [1], 0⟩]⟩ : ProxyTenant Nat Nat)] = ([], []) :=
  ⟨by decide,
    C6_no_match_yields_empty (fun _ => (none : Option (List Nat × Bool)))
      (⟨['g'], ['v'], ['K']⟩ : GroupVersionKind)
      [⟨[⟨[['K']], [], [1], 0⟩]⟩] (by decide)⟩

/-! ### Claim about the logging middleware -/

/-- C10: the handler built by `LoggerMiddleware` delegates to the wrapped
handler exactly once, with the identical response writer and request, and its
only other effect is a single verbosity-10 log record of the request's
metadata emitted before the delegation. -/
theorem C10_logger_single_delegation {W : Type} (w : W) (r : Request) :
    (LoggerMiddleware w r).filter isServeEvent = [HandlerEvent.serveNext w r] ∧
      (LoggerMiddleware w r).filter isLogEvent =
        [HandlerEvent.logRecord 10 "HTTP details".data r] ∧
      LoggerMiddleware w r =
        [HandlerEvent.logRecord 10 "HTTP details".data r, HandlerEvent.serveNext w r] :=
  ⟨rfl, rfl, rfl⟩

end CapsuleProxy
